import Mathlib

/-!
Verification of the gomail core (darkrockmountain/gomail) against its
natural-language specification.

The definitions below are a shallow embedding of the Go source:
* `common/validation.go`   — `ValidateEmail`, `ValidateEmailSlice`
* `common/email.go`        — `EmailMessage`, its accessors, `NewEmailMessage`,
                             `GetAttachments`, `BuildMimeMessage`
* attachment file          — `Attachment`, `GetFilename`, `GetBase64Content`,
                             `GetRawContent`
* utils file               — `IsHTML`, `GetMimeType`
* `sanitizer/default_text_sanitizer.go` — the default text sanitizer
* `providers/smtp/smtp_email_sender.go` — envelope construction and the
                             connection-method dependent SMTP session shape

Go byte strings are modelled as Lean `String`/`List Char` (all literals
involved are ASCII), Go `int` as `Int`, byte slices as `List Nat`.
External collaborators (the bluemonday HTML sanitizer and the `mime`
extension table) are modelled as function parameters, since their code is
not part of this repository.
-/

/-- Go `unicode.IsSpace` on a character, by code point (the set Go's
`strings.TrimSpace` trims): ASCII space characters plus the Unicode
White_Space code points. -/
def goIsSpace (c : Char) : Bool :=
  let n := c.toNat
  n = 32 || n = 9 || n = 10 || n = 11 || n = 12 || n = 13 ||
  n = 0x85 || n = 0xA0 || n = 0x1680 ||
  (0x2000 ≤ n && n ≤ 0x200A) ||
  n = 0x2028 || n = 0x2029 || n = 0x202F || n = 0x205F || n = 0x3000

/-- Go `strings.TrimSpace`: drop leading and trailing white space. -/
def goTrimSpace (s : String) : String :=
  String.mk (((s.data.dropWhile goIsSpace).reverse.dropWhile goIsSpace).reverse)

/-- Character class `[a-zA-Z]` of the Go regexes (ASCII letters). -/
def isAsciiLetter (c : Char) : Bool :=
  let n := c.toNat
  (65 ≤ n && n ≤ 90) || (97 ≤ n && n ≤ 122)

/-- Character class `[0-9]` (ASCII digits). -/
def isAsciiDigit (c : Char) : Bool :=
  let n := c.toNat
  48 ≤ n && n ≤ 57

/-- Character class `[a-zA-Z0-9._%+\-]` of `emailRegex` (the local part). -/
def isLocalChar (c : Char) : Bool :=
  isAsciiLetter c || isAsciiDigit c ||
  c.toNat = 46 || c.toNat = 95 || c.toNat = 37 || c.toNat = 43 || c.toNat = 45

/-- Character class `[a-zA-Z0-9._\-]` of `emailRegex` (the domain part). -/
def isDomainChar (c : Char) : Bool :=
  isAsciiLetter c || isAsciiDigit c ||
  c.toNat = 46 || c.toNat = 95 || c.toNat = 45

/-- Not the `@` separator. -/
def isNotAtSign (c : Char) : Bool :=
  c.toNat ≠ 64

/-- Not the `.` separator. -/
def isNotDot (c : Char) : Bool :=
  c.toNat ≠ 46

/-- Acceptance of the anchored Go regex
`^[a-zA-Z0-9._%+\-]+@[a-zA-Z0-9._\-]+\.[a-zA-Z]{2,}$`
(`emailRegex` in `common/validation.go`) on the remainder after the `@`:
the remainder must decompose as `domain ++ "." ++ tld` where the split is
at the last dot (the tld can hold no dot), the domain part is non-empty
over the domain class and the tld is two or more ASCII letters. -/
def domainAccepts (ds : List Char) : Bool :=
  let tldRev := ds.reverse.takeWhile isNotDot
  match ds.reverse.dropWhile isNotDot with
  | [] => false
  | _ :: mRev =>
    !mRev.isEmpty && mRev.all isDomainChar &&
    decide (2 ≤ tldRev.length) && tldRev.all isAsciiLetter

/-- Acceptance of `emailRegex` on a whole character list: a non-empty
local part over the local class, an `@`, then a domain accepted by
`domainAccepts`.  Since neither character class contains `@`, the split
is necessarily at the first `@`. -/
def emailRegexAccepts (cs : List Char) : Bool :=
  let localPart := cs.takeWhile isNotAtSign
  match cs.dropWhile isNotAtSign with
  | [] => false
  | _ :: domrest =>
    !localPart.isEmpty && localPart.all isLocalChar && domainAccepts domrest

/-- `ValidateEmail` (common/validation.go): trim the address and return it
when it matches `emailRegex`, the empty string otherwise. -/
def ValidateEmail (email : String) : String :=
  let trimmed := goTrimSpace email
  if emailRegexAccepts trimmed.data then trimmed else ""

/-- `ValidateEmailSlice` (common/validation.go): the Go loop that appends
each non-empty `ValidateEmail` result to an accumulator. -/
def ValidateEmailSlice (emails : List String) : List String :=
  emails.foldl
    (fun validEmails email =>
      if ValidateEmail email ≠ "" then validEmails ++ [ValidateEmail email]
      else validEmails)
    []

example : ValidateEmail " ok@x.com " = "ok@x.com" := by decide
example : ValidateEmail "bad" = "" := by decide
example : ValidateEmailSlice ["ok@x.com", "bad", "ok2@x.com"] = ["ok@x.com", "ok2@x.com"] := by decide

/-- One replacement step of Go `html.EscapeString` (its `strings.Replacer`
replaces the five single characters `&`, `'`, `<`, `>`, `"`). -/
def htmlEscapeChar (c : Char) : String :=
  if c.toNat = 38 then "&amp;"
  else if c.toNat = 39 then "&#39;"
  else if c.toNat = 60 then "&lt;"
  else if c.toNat = 62 then "&gt;"
  else if c.toNat = 34 then "&#34;"
  else String.mk [c]

/-- Concatenation of a list of strings in order (the behaviour of the
sequential `WriteString` calls and of mapping a replacer over a string). -/
def strConcat : List String → String
  | [] => ""
  | s :: rest => s ++ strConcat rest

/-- Go `html.EscapeString`. -/
def htmlEscapeString (s : String) : String :=
  strConcat (s.data.map htmlEscapeChar)

/-- The default text sanitizer
(`sanitizer/default_text_sanitizer.go`): escape special characters after
trimming whitespace. -/
def defaultTextSanitize (text : String) : String :=
  htmlEscapeString (goTrimSpace text)

example : defaultTextSanitize " <b>hi</b> " = "&lt;b&gt;hi&lt;/b&gt;" := by decide

/-- `Attachment` (attachment source file): filename and raw content bytes. -/
structure Attachment where
  filename : String
  content : List Nat
deriving DecidableEq

/-- `EmailMessage` (common/email.go).  The two sanitizer fields hold the
optional custom sanitizers (`nil` in Go becomes `none`); the stored field
values are raw, exactly as in the source. -/
structure EmailMessage where
  from' : String
  to' : List String
  cc : List String
  bcc : List String
  replyTo : String
  subject : String
  text : String
  html : String
  attachments : List Attachment
  maxAttachmentSize : Int
  textSanitizer : Option (String → String)
  htmlSanitizer : Option (String → String)

/-- `DefaultMaxAttachmentSize` (common/email.go): 25 MB. -/
def DefaultMaxAttachmentSize : Int := 25 * 1024 * 1024

/-- The `>` check of `IsHTML`'s regex tail `[\s\S]*>`. -/
def containsGt (l : List Char) : Bool :=
  l.any (fun c => c.toNat = 62)

/-- The class `(?i)[a-z]` of `IsHTML`'s regex under Go RE2 case folding:
the ASCII letters plus the two extra simple-fold points of that range,
U+017F LATIN SMALL LETTER LONG S (fold orbit of `s`) and U+212A KELVIN
SIGN (fold orbit of `k`). -/
def isHTMLTagLetter (c : Char) : Bool :=
  isAsciiLetter c || c.toNat = 0x17F || c.toNat = 0x212A

/-- Scanner for the unanchored case-insensitive regex `<\/?[a-z][\s\S]*>`
of `IsHTML`: some `<`, an optional `/`, one letter of the folded class,
then a later `>`. -/
def IsHTMLAux : List Char → Bool
  | [] => false
  | c :: rest =>
    (c.toNat = 60 &&
      (match rest with
       | d :: rest2 =>
         if d.toNat = 47 then
           match rest2 with
           | e :: rest3 => isHTMLTagLetter e && containsGt rest3
           | [] => false
         else isHTMLTagLetter d && containsGt rest2
       | [] => false)) ||
    IsHTMLAux rest

/-- `IsHTML` (utils source file): whether the string contains an HTML tag
per the sniffing regex `(?i)<\/?[a-z][\s\S]*>`. -/
def IsHTML (str : String) : Bool :=
  IsHTMLAux str.data

example : IsHTML "<p>hello</p>" = true := by decide
example : IsHTML "a < b and b > a" = false := by decide
example : IsHTML "stray <word> here" = true := by decide
example : IsHTML "<\u212Aa>" = true := by decide
example : IsHTML "<\u017Fa>" = true := by decide
example : IsHTML "</\u212Ab>" = true := by decide

/-- `NewEmailMessage` (common/email.go): classify the body with `IsHTML`
and initialise `maxAttachmentSize` with the default. -/
def NewEmailMessage (from' : String) (to' : List String) (subject : String)
    (body : String) : EmailMessage :=
  { from' := from'
    to' := to'
    cc := []
    bcc := []
    replyTo := ""
    subject := subject
    text := if IsHTML body then "" else body
    html := if IsHTML body then body else ""
    attachments := []
    maxAttachmentSize := DefaultMaxAttachmentSize
    textSanitizer := none
    htmlSanitizer := none }

/-- `NewFullEmailMessage` (common/email.go). -/
def NewFullEmailMessage (from' : String) (to' : List String) (subject : String)
    (cc bcc : List String) (replyTo : String) (textBody htmlBody : String)
    (attachments : List Attachment) : EmailMessage :=
  { from' := from'
    to' := to'
    cc := cc
    bcc := bcc
    replyTo := replyTo
    subject := subject
    text := textBody
    html := htmlBody
    attachments := attachments
    maxAttachmentSize := DefaultMaxAttachmentSize
    textSanitizer := none
    htmlSanitizer := none }

/-- `GetFrom` on a possibly-nil `*EmailMessage` receiver. -/
def GetFrom : Option EmailMessage → String
  | none => ""
  | some e => ValidateEmail e.from'

/-- `GetTo` on a possibly-nil receiver. -/
def GetTo : Option EmailMessage → List String
  | none => []
  | some e => ValidateEmailSlice e.to'

/-- `GetCC` on a possibly-nil receiver. -/
def GetCC : Option EmailMessage → List String
  | none => []
  | some e => ValidateEmailSlice e.cc

/-- `GetBCC` on a possibly-nil receiver. -/
def GetBCC : Option EmailMessage → List String
  | none => []
  | some e => ValidateEmailSlice e.bcc

/-- `GetReplyTo` on a possibly-nil receiver. -/
def GetReplyTo : Option EmailMessage → String
  | none => ""
  | some e => ValidateEmail e.replyTo

/-- `GetSubject` on a possibly-nil receiver: the custom text sanitizer when
set, otherwise the default text sanitizer. -/
def GetSubject : Option EmailMessage → String
  | none => ""
  | some e =>
    match e.textSanitizer with
    | some s => s e.subject
    | none => defaultTextSanitize e.subject

/-- `GetText` on a possibly-nil receiver. -/
def GetText : Option EmailMessage → String
  | none => ""
  | some e =>
    match e.textSanitizer with
    | some s => s e.text
    | none => defaultTextSanitize e.text

/-- `GetHTML` on a possibly-nil receiver.  The default HTML sanitizer is
the external bluemonday `UGCPolicy` engine, passed here as the function
parameter `defaultHtmlSanitize`. -/
def GetHTML (defaultHtmlSanitize : String → String) :
    Option EmailMessage → String
  | none => ""
  | some e =>
    match e.htmlSanitizer with
    | some s => s e.html
    | none => defaultHtmlSanitize e.html

/-- `GetAttachments` on a possibly-nil receiver: no filtering for a
negative `maxAttachmentSize`, otherwise the Go loop appending every
attachment whose content length is within the limit. -/
def GetAttachments : Option EmailMessage → List Attachment
  | none => []
  | some e =>
    if e.maxAttachmentSize < 0 then e.attachments
    else
      e.attachments.foldl
        (fun validAttachments attachment =>
          if (attachment.content.length : Int) ≤ e.maxAttachmentSize then
            validAttachments ++ [attachment]
          else validAttachments)
        []

/-- The standard base64 alphabet of Go `encoding/base64.StdEncoding`. -/
def base64Alphabet : List Char :=
  "ABCDEFGHIJKLMNOPQRSTUVWXYZabcdefghijklmnopqrstuvwxyz0123456789+/".data

/-- Character for one six-bit group. -/
def b64Char (n : Nat) : Char :=
  match base64Alphabet.get? n with
  | some c => c
  | none => 'A'

/-- Go `base64.StdEncoding.Encode`: three input bytes per four output
characters, `=`-padded. -/
def base64Encode : List Nat → List Char
  | [] => []
  | [b1] => [b64Char (b1 / 4), b64Char (b1 % 4 * 16), '=', '=']
  | [b1, b2] =>
    [b64Char (b1 / 4), b64Char (b1 % 4 * 16 + b2 / 16), b64Char (b2 % 16 * 4), '=']
  | b1 :: b2 :: b3 :: rest =>
    b64Char (b1 / 4) :: b64Char (b1 % 4 * 16 + b2 / 16) ::
    b64Char (b2 % 16 * 4 + b3 / 64) :: b64Char (b3 % 64) :: base64Encode rest

example : String.mk (base64Encode [104, 101, 108, 108, 111]) = "aGVsbG8=" := by decide

/-- `GetFilename` on a possibly-nil `*Attachment` receiver (attachment
source file): the sentinel for nil, the sanitized filename otherwise. -/
def Attachment.GetFilename : Option Attachment → String
  | none => "nil_attachment"
  | some a => defaultTextSanitize a.filename

/-- `GetBase64Content` on a possibly-nil receiver: empty for nil or empty
content, the base64 bytes (as ASCII characters) otherwise. -/
def Attachment.GetBase64Content : Option Attachment → List Char
  | none => []
  | some a => if a.content.length = 0 then [] else base64Encode a.content

/-- `GetRawContent` on a possibly-nil receiver. -/
def Attachment.GetRawContent : Option Attachment → List Nat
  | none => []
  | some a => if a.content.length = 0 then [] else a.content

/-- Go `filepath.Ext`: scan backwards from the end of the path until a
separator; the extension starts at the first dot found this way. -/
def filepathExtAux : List Char → List Char → String
  | [], _ => ""
  | c :: rest, acc =>
    if c.toNat = 47 then ""
    else if c.toNat = 46 then String.mk (c :: acc)
    else filepathExtAux rest (c :: acc)

/-- Go `filepath.Ext` on a whole path. -/
def filepathExt (p : String) : String :=
  filepathExtAux p.data.reverse []

example : filepathExt "dir/file.pdf" = ".pdf" := by decide
example : filepathExt "noext" = "" := by decide

/-- ASCII lowering of Go `strings.ToLower` (file extensions are ASCII). -/
def asciiToLower (s : String) : String :=
  String.mk (s.data.map (fun c =>
    if 65 ≤ c.toNat && c.toNat ≤ 90 then Char.ofNat (c.toNat + 32) else c))

/-- `GetMimeType` (utils source file): the MIME type of the lower-cased
extension.  The lookup table of Go's `mime.TypeByExtension` is external to
the repository and is passed as the parameter `typeByExtension`. -/
def GetMimeType (typeByExtension : String → String) (filename : String) : String :=
  typeByExtension (asciiToLower (filepathExt filename))

/-- Go `strings.Join` with a separator. -/
def stringsJoin (sep : String) : List String → String
  | [] => ""
  | [s] => s
  | s :: rest => s ++ sep ++ stringsJoin sep rest

/-- The inputs of `BuildMimeMessage` that come from outside the message:
the two `time.Now().UnixNano()` readings used for the boundary tokens, the
`mime.TypeByExtension` table, and the external bluemonday default HTML
sanitizer used by `GetHTML`. -/
structure MimeEnv where
  mixedNanos : Int
  altNanos : Int
  typeByExtension : String → String
  htmlSanitize : String → String

/-- Decimal digit character. -/
def digitChar (d : Nat) : Char :=
  match "0123456789".data.get? d with
  | some c => c
  | none => '0'

/-- Digits of a natural number, most significant first, fuel-driven
exactly like the core decimal printer. -/
def natDigitsCore : Nat → Nat → List Char → List Char
  | 0, _, acc => acc
  | fuel + 1, n, acc =>
    if n < 10 then digitChar n :: acc
    else natDigitsCore fuel (n / 10) (digitChar (n % 10) :: acc)

/-- Decimal rendering of a natural number. -/
def natToString (n : Nat) : String :=
  String.mk (natDigitsCore (n + 1) n [])

/-- Go `fmt.Sprintf("%d", i)` for a signed integer: optional minus sign
followed by decimal digits. -/
def intToString : Int → String
  | Int.ofNat m => natToString m
  | Int.negSucc m => "-" ++ natToString (m + 1)

example : intToString 1234 = "1234" := by decide
example : intToString (-7) = "-7" := by decide

/-- The `mixed-boundary-%d` token of `BuildMimeMessage`. -/
def mixedBoundary (env : MimeEnv) : String :=
  "mixed-boundary-" ++ intToString env.mixedNanos

/-- The `alt-boundary-%d` token of `BuildMimeMessage`. -/
def altBoundary (env : MimeEnv) : String :=
  "alt-boundary-" ++ intToString env.altNanos

/-- `BuildMimeMessage` (common/email.go): transcription of the sequential
`WriteString` calls.  The Go function also returns an error value that is
always `nil`, omitted here. -/
def BuildMimeMessage (env : MimeEnv) (message : Option EmailMessage) : String :=
  let msg := "From: " ++ GetFrom message ++ "\r\n"
  let toRecipients := GetTo message
  let msg :=
    if toRecipients.length > 0 then
      msg ++ ("To: " ++ stringsJoin "," toRecipients ++ "\r\n")
    else msg
  let ccRecipients := GetCC message
  let msg :=
    if ccRecipients.length > 0 then
      msg ++ ("Cc: " ++ stringsJoin "," ccRecipients ++ "\r\n")
    else msg
  let msg :=
    if GetReplyTo message ≠ "" then
      msg ++ ("Reply-To: " ++ GetReplyTo message ++ "\r\n")
    else msg
  let msg := msg ++ ("Subject: " ++ GetSubject message ++ "\r\n")
  let msg := msg ++ "MIME-Version: 1.0\r\n"
  let attachments := GetAttachments message
  let msg :=
    if attachments.length > 0 then
      msg ++ ("Content-Type: multipart/mixed; boundary=" ++ mixedBoundary env ++ "\r\n")
        ++ "\r\n"
        ++ ("--" ++ mixedBoundary env ++ "\r\n")
        ++ ("Content-Type: multipart/alternative; boundary=" ++ altBoundary env ++ "\r\n")
        ++ "\r\n"
    else
      msg ++ ("Content-Type: multipart/alternative; boundary=" ++ altBoundary env ++ "\r\n")
        ++ "\r\n"
  let textMessage := GetText message
  let msg :=
    if textMessage ≠ "" then
      msg ++ ("--" ++ altBoundary env ++ "\r\n")
        ++ "Content-Type: text/plain; charset=UTF-8\r\n"
        ++ "\r\n"
        ++ textMessage
        ++ "\r\n"
    else msg
  let htmlMessage := GetHTML env.htmlSanitize message
  let msg :=
    if htmlMessage ≠ "" then
      msg ++ ("--" ++ altBoundary env ++ "\r\n")
        ++ "Content-Type: text/html; charset=UTF-8\r\n"
        ++ "\r\n"
        ++ htmlMessage
        ++ "\r\n"
    else msg
  let msg := msg ++ ("--" ++ altBoundary env ++ "--\r\n")
  let msg :=
    if attachments.length > 0 then
      msg ++ strConcat (attachments.map (fun attachment =>
          let fileName := Attachment.GetFilename (some attachment)
          let mimeType := GetMimeType env.typeByExtension fileName
          ("--" ++ mixedBoundary env ++ "\r\n")
            ++ ("Content-Type: " ++ mimeType ++ "\r\n")
            ++ "Content-Transfer-Encoding: base64\r\n"
            ++ ("Content-Disposition: attachment; filename=\"" ++ fileName ++ "\"\r\n")
            ++ "\r\n"
            ++ String.mk (Attachment.GetBase64Content (some attachment))
            ++ "\r\n"))
        ++ ("--" ++ mixedBoundary env ++ "--\r\n")
    else msg
  msg

/-- `ConnectionMethod` (providers/smtp/smtp_email_sender.go). -/
inductive ConnectionMethod
  | CONN_IMPLICIT
  | CONN_TLS
deriving DecidableEq

/-- `AuthMethod` (providers/smtp/smtp_email_sender.go). -/
inductive AuthMethod
  | AUTH_CRAM_MD5
  | AUTH_PLAIN
deriving DecidableEq

/-- `smtpEmailSender` configuration (providers/smtp/smtp_email_sender.go). -/
structure smtpEmailSender where
  host : String
  port : Int
  user : String
  password : String
  authMethod : AuthMethod
  connectionMethod : ConnectionMethod
deriving DecidableEq

/-- `NewSmtpEmailSenderWithConnMethod`: store the provided settings (the
Go constructor never fails; the error result is always `nil`). -/
def NewSmtpEmailSenderWithConnMethod (host : String) (port : Int)
    (user password : String) (authMethod : AuthMethod)
    (connectionMethod : ConnectionMethod) : smtpEmailSender :=
  { host := host, port := port, user := user, password := password
    authMethod := authMethod, connectionMethod := connectionMethod }

/-- `NewSmtpEmailSender`: delegate with `CONN_IMPLICIT`. -/
def NewSmtpEmailSender (host : String) (port : Int) (user password : String)
    (authMethod : AuthMethod) : smtpEmailSender :=
  NewSmtpEmailSenderWithConnMethod host port user password authMethod
    ConnectionMethod.CONN_IMPLICIT

/-- The recipient list `sendMailTo` built at the top of `SendEmail`
(providers/smtp/smtp_email_sender.go lines 86-88): To, then CC, then BCC. -/
def sendMailTo (message : Option EmailMessage) : List String :=
  GetTo message ++ GetCC message ++ GetBCC message

/-- Network-level events of one `SendEmail` call, in order of occurrence. -/
inductive SmtpEvent
  | tcpConnect
  | tlsHandshake
  | cmdEHLO
  | cmdSTARTTLS
  | cmdAUTH
  | cmdMAIL (sender : String)
  | cmdRCPT (recipient : String)
  | cmdDATA
  | cmdQUIT
deriving DecidableEq

/-- Whether an event is an SMTP protocol command issued by the client. -/
def isSmtpCommand : SmtpEvent → Bool
  | SmtpEvent.tcpConnect => false
  | SmtpEvent.tlsHandshake => false
  | _ => true

/-- The ordered event trace of one `SendEmail` call
(providers/smtp/smtp_email_sender.go lines 99-152), on the successful
path.

* `CONN_TLS` branch (lines 99-147): `tls.Dial` performs the TCP connect
  and the TLS handshake, then `smtp.NewClient`/`client.Auth` issue EHLO
  and AUTH, followed by MAIL, one RCPT per entry of `sendMailTo`, DATA and
  QUIT.
* `CONN_IMPLICIT` branch (line 149): `smtp.SendMail` of Go's `net/smtp`
  — external library code, modelled from its documented behaviour: dial a
  plain TCP connection, send EHLO, and only when the server advertises
  STARTTLS issue STARTTLS and perform the TLS handshake, then AUTH, MAIL,
  RCPTs, DATA, QUIT. -/
def sendEmailTrace (cm : ConnectionMethod) (serverOffersSTARTTLS : Bool)
    (sender : String) (rcpts : List String) : List SmtpEvent :=
  match cm with
  | ConnectionMethod.CONN_TLS =>
    SmtpEvent.tcpConnect :: SmtpEvent.tlsHandshake :: SmtpEvent.cmdEHLO ::
    SmtpEvent.cmdAUTH :: SmtpEvent.cmdMAIL sender ::
    (rcpts.map SmtpEvent.cmdRCPT ++ [SmtpEvent.cmdDATA, SmtpEvent.cmdQUIT])
  | ConnectionMethod.CONN_IMPLICIT =>
    SmtpEvent.tcpConnect :: SmtpEvent.cmdEHLO ::
    ((if serverOffersSTARTTLS then
        [SmtpEvent.cmdSTARTTLS, SmtpEvent.tlsHandshake]
      else []) ++
     (SmtpEvent.cmdAUTH :: SmtpEvent.cmdMAIL sender ::
      (rcpts.map SmtpEvent.cmdRCPT ++ [SmtpEvent.cmdDATA, SmtpEvent.cmdQUIT])))

/-- A TLS handshake occurs and no SMTP command precedes it: the session is
encrypted before the first protocol command. -/
def handshakeBeforeCommands : List SmtpEvent → Bool
  | [] => false
  | SmtpEvent.tlsHandshake :: _ => true
  | e :: rest => if isSmtpCommand e then false else handshakeBeforeCommands rest

/-- Prefix test on character lists. -/
def startsWithChars : List Char → List Char → Bool
  | [], _ => true
  | _ :: _, [] => false
  | p :: ps, c :: cs => p = c && startsWithChars ps cs

/-- Substring test on character lists. -/
def containsSubAux (pat : List Char) : List Char → Bool
  | [] => startsWithChars pat []
  | c :: rest => startsWithChars pat (c :: rest) || containsSubAux pat rest

/-- Whether `pat` occurs as a contiguous substring of `s`. -/
def strContains (s pat : String) : Bool :=
  containsSubAux pat.data s.data

/-- The Go append-loop over a list is the filter of its predicate. -/
theorem foldl_if_append_eq_filter {α : Type} (p : α → Prop) [DecidablePred p] :
    ∀ (l acc : List α),
      l.foldl (fun r a => if p a then r ++ [a] else r) acc =
        acc ++ l.filter (fun a => decide (p a)) := by
  intro l
  induction l with
  | nil => intro acc; simp
  | cons a t ih =>
    intro acc
    by_cases h : p a <;> simp [List.filter_cons, h, ih]

/-- The concrete message of the spec's BCC confidentiality scenario. -/
def bccScenarioMessage : EmailMessage :=
  NewFullEmailMessage "a@x.com" ["b@x.com"] "Hi" [] ["secret@x.com"] "" "Hello" "" []

/-- The concrete serializer environment used for closed evaluations. -/
def scenarioEnv : MimeEnv :=
  { mixedNanos := 0, altNanos := 0
    typeByExtension := fun _ => "", htmlSanitize := fun s => s }

/-- C1: BCC blind-copy semantics.  Every validated BCC address is part of
the envelope recipient list built by `SendEmail` and gets its own RCPT
event in the session trace; `BuildMimeMessage` does not depend on the
`bcc` field, so two messages differing only in `bcc` serialize to
identical bytes; in the spec's concrete scenario the serialized bytes
contain no `Bcc` header text at all. -/
theorem bcc_blind_copy :
    (∀ (m : Option EmailMessage) (b : String), b ∈ GetBCC m →
      b ∈ sendMailTo m ∧
      ∀ cm offers, SmtpEvent.cmdRCPT b ∈
        sendEmailTrace cm offers (GetFrom m) (sendMailTo m)) ∧
    (∀ (env : MimeEnv) (e : EmailMessage) (b1 b2 : List String),
      BuildMimeMessage env (some { e with bcc := b1 }) =
        BuildMimeMessage env (some { e with bcc := b2 })) ∧
    strContains (BuildMimeMessage scenarioEnv (some bccScenarioMessage)) "Bcc"
      = false := by
  refine ⟨?_, ?_, ?_⟩
  · intro m b hb
    have hmem : b ∈ sendMailTo m := by
      unfold sendMailTo
      exact List.mem_append_right _ hb
    refine ⟨hmem, ?_⟩
    intro cm offers
    have hr : SmtpEvent.cmdRCPT b ∈ (sendMailTo m).map SmtpEvent.cmdRCPT :=
      List.mem_map_of_mem _ hmem
    cases cm <;> simp [sendEmailTrace] <;>
      simp [List.mem_map] at hr <;>
      tauto
  · intro env e b1 b2
    rfl
  · decide

/-- C1 witness: the scenario message with `bcc=["secret@x.com"]`. -/
theorem bcc_blind_copy_witness :
    "secret@x.com" ∈ GetBCC (some bccScenarioMessage) ∧
    ("secret@x.com" ∈ sendMailTo (some bccScenarioMessage) ∧
     ∀ cm offers, SmtpEvent.cmdRCPT "secret@x.com" ∈
       sendEmailTrace cm offers (GetFrom (some bccScenarioMessage))
         (sendMailTo (some bccScenarioMessage))) :=
  ⟨by decide, bcc_blind_copy.1 (some bccScenarioMessage) "secret@x.com" (by decide)⟩

/-- C2 counterexample: with the default `CONN_IMPLICIT` connection method
the code calls `smtp.SendMail`, which dials plain TCP and issues EHLO
before any TLS handshake, so the handshake does not precede the first
SMTP command (here even against a server that offers STARTTLS). -/
theorem conn_implicit_handshake_not_first :
    handshakeBeforeCommands
      (sendEmailTrace
        (NewSmtpEmailSender "smtp.example.com" 465 "user" "password"
          AuthMethod.AUTH_PLAIN).connectionMethod
        true "a@x.com" ["b@x.com"]) = false := by
  decide

/-- C2 amended: it is the `CONN_TLS` connection method whose session is
encrypted before the first SMTP command (`tls.Dial` precedes the client
construction); for `CONN_IMPLICIT` no such guarantee exists. -/
theorem conn_tls_handshake_first :
    ∀ (offers : Bool) (sender : String) (rcpts : List String),
      handshakeBeforeCommands
        (sendEmailTrace ConnectionMethod.CONN_TLS offers sender rcpts) = true := by
  intro offers sender rcpts
  rfl

/-- C3: attachment filtering.  A negative `maxAttachmentSize` returns the
stored list unfiltered; otherwise exactly the attachments whose content
length is within the limit survive, in their original order (the Go
append loop is a filter). -/
theorem getAttachments_filtering :
    ∀ e : EmailMessage,
      GetAttachments (some e) =
        if e.maxAttachmentSize < 0 then e.attachments
        else e.attachments.filter
          (fun a => decide ((a.content.length : Int) ≤ e.maxAttachmentSize)) := by
  intro e
  unfold GetAttachments
  by_cases h : e.maxAttachmentSize < 0
  · simp [h]
  · simp only [h, if_false]
    simpa using
      foldl_if_append_eq_filter
        (fun a : Attachment => (a.content.length : Int) ≤ e.maxAttachmentSize)
        e.attachments []

/-- C7: nil-receiver tolerance of the `EmailMessage` accessors.  On a nil
receiver every string accessor returns the empty string and every list
accessor the empty list; on a non-nil receiver each address accessor is
exactly the validator applied to the stored raw field. -/
theorem accessors_nil_tolerance :
    GetFrom none = "" ∧ GetReplyTo none = "" ∧ GetSubject none = "" ∧
    GetText none = "" ∧ (∀ dh, GetHTML dh none = "") ∧
    GetTo none = [] ∧ GetCC none = [] ∧ GetBCC none = [] ∧
    GetAttachments none = [] ∧
    (∀ e : EmailMessage,
      GetFrom (some e) = ValidateEmail e.from' ∧
      GetReplyTo (some e) = ValidateEmail e.replyTo ∧
      GetTo (some e) = ValidateEmailSlice e.to' ∧
      GetCC (some e) = ValidateEmailSlice e.cc ∧
      GetBCC (some e) = ValidateEmailSlice e.bcc) := by
  refine ⟨rfl, rfl, rfl, rfl, fun dh => rfl, rfl, rfl, rfl, rfl, ?_⟩
  intro e
  exact ⟨rfl, rfl, rfl, rfl, rfl⟩

/-- C8: the tuple constructor auto-classifies the body with `IsHTML` and
initialises the default 25 MiB attachment ceiling. -/
theorem newEmailMessage_classification :
    ∀ (from' : String) (to' : List String) (subject body : String),
      (IsHTML body = true →
        (NewEmailMessage from' to' subject body).html = body ∧
        (NewEmailMessage from' to' subject body).text = "") ∧
      (IsHTML body = false →
        (NewEmailMessage from' to' subject body).text = body ∧
        (NewEmailMessage from' to' subject body).html = "") ∧
      (NewEmailMessage from' to' subject body).maxAttachmentSize
        = 25 * 1024 * 1024 := by
  intro from' to' subject body
  refine ⟨fun h => ?_, fun h => ?_, rfl⟩
  · simp [NewEmailMessage, h]
  · simp [NewEmailMessage, h]

/-- C8 witness: a body carrying a real tag is classified as HTML, and the
default size ceiling is set. -/
theorem newEmailMessage_classification_witness :
    IsHTML "<p>x</p>" = true ∧
    (NewEmailMessage "a@x.com" ["b@x.com"] "s" "<p>x</p>").html = "<p>x</p>" ∧
    (NewEmailMessage "a@x.com" ["b@x.com"] "s" "<p>x</p>").text = "" ∧
    (NewEmailMessage "a@x.com" ["b@x.com"] "s" "<p>x</p>").maxAttachmentSize
      = 25 * 1024 * 1024 :=
  ⟨by decide,
   ((newEmailMessage_classification "a@x.com" ["b@x.com"] "s" "<p>x</p>").1
      (by decide)).1,
   ((newEmailMessage_classification "a@x.com" ["b@x.com"] "s" "<p>x</p>").1
      (by decide)).2,
   (newEmailMessage_classification "a@x.com" ["b@x.com"] "s" "<p>x</p>").2.2⟩

/-- C10: nil-receiver behaviour of the `Attachment` getters: the filename
getter answers the `"nil_attachment"` sentinel (not the empty string),
both content getters answer the empty sequence, and they also answer the
empty sequence whenever the stored content is empty. -/
theorem attachment_getters_nil :
    Attachment.GetFilename none = "nil_attachment" ∧
    Attachment.GetFilename none ≠ "" ∧
    Attachment.GetBase64Content none = [] ∧
    Attachment.GetRawContent none = [] ∧
    (∀ a : Attachment, a.content = [] →
      Attachment.GetBase64Content (some a) = [] ∧
      Attachment.GetRawContent (some a) = []) := by
  refine ⟨rfl, by decide, rfl, rfl, ?_⟩
  intro a h
  constructor
  · simp [Attachment.GetBase64Content, h]
  · simp [Attachment.GetRawContent, h]

/-- C10 witness: a concrete attachment with empty content. -/
theorem attachment_getters_nil_witness :
    ({ filename := "f.txt", content := [] } : Attachment).content = [] ∧
    Attachment.GetBase64Content (some { filename := "f.txt", content := [] }) = [] ∧
    Attachment.GetRawContent (some { filename := "f.txt", content := [] }) = [] :=
  ⟨rfl,
   (attachment_getters_nil.2.2.2.2 { filename := "f.txt", content := [] } rfl).1,
   (attachment_getters_nil.2.2.2.2 { filename := "f.txt", content := [] } rfl).2⟩

/-- The head of a non-empty `dropWhile` result fails the predicate. -/
theorem dropWhile_head_false {α : Type} (p : α → Bool) :
    ∀ (l : List α) (a : α) (rest : List α),
      l.dropWhile p = a :: rest → p a = false := by
  intro l
  induction l with
  | nil => intro a rest h; simp [List.dropWhile] at h
  | cons x xs ih =>
    intro a rest h
    cases hpx : p x with
    | true =>
      simp [List.dropWhile_cons, hpx] at h
      exact ih a rest h
    | false =>
      simp [List.dropWhile_cons, hpx] at h
      obtain ⟨h1, _⟩ := h
      rw [← h1]
      exact hpx

/-- Splitting `takeWhile`/`dropWhile` around the first failing element. -/
theorem takeWhile_middle {α : Type} (p : α → Bool) :
    ∀ (l : List α) (x : α) (r : List α), (∀ c ∈ l, p c = true) → p x = false →
      (l ++ x :: r).takeWhile p = l ∧ (l ++ x :: r).dropWhile p = x :: r := by
  intro l
  induction l with
  | nil =>
    intro x r _ hx
    constructor <;> simp [List.takeWhile_cons, List.dropWhile_cons, hx]
  | cons c cs ih =>
    intro x r hall hx
    have hc : p c = true := hall c (by simp)
    have ihr := ih x r (fun d hd => hall d (by simp [hd])) hx
    constructor <;>
      simp [List.takeWhile_cons, List.dropWhile_cons, hc, ihr.1, ihr.2]

/-- A local-part character is not the separator and not white space. -/
theorem isLocalChar_facts {c : Char} (h : isLocalChar c = true) :
    c.toNat ≠ 64 ∧ goIsSpace c = false := by
  simp [isLocalChar, isAsciiLetter, isAsciiDigit] at h
  simp [goIsSpace]
  omega

/-- A domain character is not white space. -/
theorem isDomainChar_facts {c : Char} (h : isDomainChar c = true) :
    goIsSpace c = false := by
  simp [isDomainChar, isAsciiLetter, isAsciiDigit] at h
  simp [goIsSpace]
  omega

/-- An ASCII letter is not a dot and not white space. -/
theorem isAsciiLetter_facts {c : Char} (h : isAsciiLetter c = true) :
    c.toNat ≠ 46 ∧ goIsSpace c = false := by
  simp [isAsciiLetter] at h
  simp [goIsSpace]
  omega

/-- Characterisation of the embedded `emailRegex` matcher: acceptance is
exactly the existence of the anchored decomposition
`local ++ "@" ++ domain ++ "." ++ tld` demanded by the regex. -/
theorem emailRegexAccepts_iff (cs : List Char) :
    emailRegexAccepts cs = true ↔
      ∃ l d t : List Char,
        cs = l ++ '@' :: (d ++ '.' :: t) ∧
        l ≠ [] ∧ (∀ c ∈ l, isLocalChar c = true) ∧
        d ≠ [] ∧ (∀ c ∈ d, isDomainChar c = true) ∧
        2 ≤ t.length ∧ (∀ c ∈ t, isAsciiLetter c = true) := by
  constructor
  · intro h
    cases hdrop : cs.dropWhile isNotAtSign with
    | nil => simp [emailRegexAccepts, hdrop] at h
    | cons a domrest =>
      have ha : a = '@' := by
        have hfa := dropWhile_head_false isNotAtSign cs a domrest hdrop
        simp [isNotAtSign] at hfa
        have hca : Char.ofNat a.toNat = Char.ofNat 64 := by rw [hfa]
        rwa [Char.ofNat_toNat] at hca
      simp only [emailRegexAccepts, hdrop, Bool.and_eq_true] at h
      obtain ⟨⟨hne, hall⟩, hdom⟩ := h
      have hsplit : cs.takeWhile isNotAtSign ++ a :: domrest = cs := by
        rw [← hdrop]; exact List.takeWhile_append_dropWhile _ _
      set localPart := cs.takeWhile isNotAtSign with hLP
      cases hdrop2 : domrest.reverse.dropWhile isNotDot with
      | nil => simp [domainAccepts, hdrop2] at hdom
      | cons b mRev =>
        have hb : b = '.' := by
          have hfb := dropWhile_head_false isNotDot domrest.reverse b mRev hdrop2
          simp [isNotDot] at hfb
          have hcb : Char.ofNat b.toNat = Char.ofNat 46 := by rw [hfb]
          rwa [Char.ofNat_toNat] at hcb
        simp only [domainAccepts, hdrop2, Bool.and_eq_true] at hdom
        obtain ⟨⟨⟨hmne, hmall⟩, hlen⟩, htall⟩ := hdom
        have hsplit2 :
            domrest.reverse.takeWhile isNotDot ++ b :: mRev = domrest.reverse := by
          rw [← hdrop2]; exact List.takeWhile_append_dropWhile _ _
        set tldRev := domrest.reverse.takeWhile isNotDot with hT
        have hdomrest : domrest = mRev.reverse ++ '.' :: tldRev.reverse := by
          have h1 := congrArg List.reverse hsplit2
          rw [List.reverse_reverse] at h1
          rw [← h1, hb]
          simp [List.reverse_append]
        refine ⟨localPart, mRev.reverse, tldRev.reverse, ?_, ?_, ?_, ?_, ?_, ?_, ?_⟩
        · rw [← hsplit, ha, hdomrest]
        · simpa using hne
        · intro c hc
          exact List.all_eq_true.mp hall c hc
        · simpa using hmne
        · intro c hc
          exact List.all_eq_true.mp hmall c (List.mem_reverse.mp hc)
        · simpa using hlen
        · intro c hc
          exact List.all_eq_true.mp htall c (List.mem_reverse.mp hc)
  · intro h
    obtain ⟨l, d, t, hcs, hl, hlall, hd, hdall, htlen, htall⟩ := h
    have hstep : ∀ c ∈ l, isNotAtSign c = true := by
      intro c hc
      have hx := (isLocalChar_facts (hlall c hc)).1
      simp [isNotAtSign, hx]
    have hmid := takeWhile_middle isNotAtSign l '@' (d ++ '.' :: t) hstep (by decide)
    have hrev : (d ++ '.' :: t).reverse = t.reverse ++ '.' :: d.reverse := by
      simp [List.reverse_append]
    have hstep2 : ∀ c ∈ t.reverse, isNotDot c = true := by
      intro c hc
      have hx := (isAsciiLetter_facts (htall c (List.mem_reverse.mp hc))).1
      simp [isNotDot, hx]
    have hmid2 := takeWhile_middle isNotDot t.reverse '.' d.reverse hstep2 (by decide)
    have hdomAcc : domainAccepts (d ++ '.' :: t) = true := by
      simp only [domainAccepts, hrev, hmid2.1, hmid2.2, Bool.and_eq_true]
      refine ⟨⟨⟨?_, ?_⟩, ?_⟩, ?_⟩
      · simpa using hd
      · exact List.all_eq_true.mpr (fun c hc => hdall c (List.mem_reverse.mp hc))
      · simpa using htlen
      · exact List.all_eq_true.mpr (fun c hc => htall c (List.mem_reverse.mp hc))
    rw [hcs]
    simp only [emailRegexAccepts, hmid.1, hmid.2, Bool.and_eq_true]
    refine ⟨⟨?_, ?_⟩, hdomAcc⟩
    · simpa using hl
    · exact List.all_eq_true.mpr hlall

/-- No character of an accepted address is white space. -/
theorem emailRegexAccepts_no_space {cs : List Char}
    (h : emailRegexAccepts cs = true) : ∀ c ∈ cs, goIsSpace c = false := by
  obtain ⟨l, d, t, hcs, _, hlall, _, hdall, _, htall⟩ :=
    (emailRegexAccepts_iff cs).mp h
  intro c hc
  rw [hcs] at hc
  simp only [List.mem_append, List.mem_cons] at hc
  rcases hc with hc | hc | hc | hc | hc
  · exact (isLocalChar_facts (hlall c hc)).2
  · rw [hc]; decide
  · exact isDomainChar_facts (hdall c hc)
  · rw [hc]; decide
  · exact (isAsciiLetter_facts (htall c hc)).2

/-- An accepted address is non-empty. -/
theorem emailRegexAccepts_ne_nil {cs : List Char}
    (h : emailRegexAccepts cs = true) : cs ≠ [] := by
  intro hnil
  rw [hnil] at h
  exact absurd h (by decide)

/-- `dropWhile` is the identity on a list all of whose members fail the
predicate. -/
theorem dropWhile_all_false {α : Type} (p : α → Bool) :
    ∀ l : List α, (∀ c ∈ l, p c = false) → l.dropWhile p = l := by
  intro l h
  cases l with
  | nil => rfl
  | cons x xs => simp [List.dropWhile_cons, h x (by simp)]

/-- Trimming is the identity on a string without white space. -/
theorem goTrimSpace_eq_self {t : String}
    (h : ∀ c ∈ t.data, goIsSpace c = false) : goTrimSpace t = t := by
  have h1 : t.data.dropWhile goIsSpace = t.data := dropWhile_all_false _ _ h
  have h2 : t.data.reverse.dropWhile goIsSpace = t.data.reverse :=
    dropWhile_all_false _ _ (fun c hc => h c (List.mem_reverse.mp hc))
  apply String.ext
  show ((t.data.dropWhile goIsSpace).reverse.dropWhile goIsSpace).reverse = t.data
  rw [h1, h2, List.reverse_reverse]

/-- Trimming removes exactly one added leading and trailing space around a
space-free non-empty string. -/
theorem goTrimSpace_wrap (a : String)
    (h : ∀ c ∈ a.data, goIsSpace c = false) (hne : a.data ≠ []) :
    goTrimSpace (" " ++ a ++ " ") = a := by
  obtain ⟨c, rest, hcr⟩ := List.exists_cons_of_ne_nil hne
  have hc : goIsSpace c = false := h c (by rw [hcr]; exact List.mem_cons_self _ _)
  have hdata : (" " ++ a ++ " ").data = ' ' :: (c :: (rest ++ [' '])) := by
    simp [String.data_append, hcr]
  have hrestmem : ∀ x ∈ rest.reverse ++ [c], goIsSpace x = false := by
    intro x hx
    simp only [List.mem_append, List.mem_reverse, List.mem_singleton] at hx
    rcases hx with hx | hx
    · exact h x (by rw [hcr]; exact List.mem_cons_of_mem _ hx)
    · rw [hx]; exact hc
  apply String.ext
  show (((" " ++ a ++ " ").data.dropWhile goIsSpace).reverse.dropWhile
      goIsSpace).reverse = a.data
  rw [hdata]
  rw [List.dropWhile_cons]
  simp only [show goIsSpace ' ' = true from by decide, if_true]
  rw [List.dropWhile_cons]
  simp only [hc, Bool.false_eq_true, if_false]
  have hrev : (c :: (rest ++ [' '])).reverse = ' ' :: (rest.reverse ++ [c]) := by
    simp
  rw [hrev]
  rw [List.dropWhile_cons]
  simp only [show goIsSpace ' ' = true from by decide, if_true]
  rw [dropWhile_all_false _ _ hrestmem]
  simp [hcr]

/-- The conservative address grammar in the spec's words: a non-empty
local part, an `@`, a domain that contains at least one dot, and a final
label of two or more letters (`local-part@domain.tld`). -/
def EmailGrammar (s : String) : Prop :=
  ∃ l d t : List Char,
    s.data = l ++ '@' :: (d ++ '.' :: t) ∧
    l ≠ [] ∧ (∀ c ∈ l, isLocalChar c = true) ∧
    d ≠ [] ∧ (∀ c ∈ d, isDomainChar c = true) ∧
    2 ≤ t.length ∧ (∀ c ∈ t, isAsciiLetter c = true)

/-- C6: `ValidateEmail` trims and returns the trimmed address exactly when
it matches the conservative grammar, the empty string otherwise; in
particular any input without `@`, without a dot after trimming, or with an
empty local part yields `""`.  Totality (never raising) is inherent: the
embedding is a total function. -/
theorem validateEmail_spec :
    ∀ s : String,
      (ValidateEmail s = goTrimSpace s ∨ ValidateEmail s = "") ∧
      (ValidateEmail s ≠ "" ↔ EmailGrammar (goTrimSpace s)) ∧
      ('@' ∉ (goTrimSpace s).data → ValidateEmail s = "") ∧
      ('.' ∉ (goTrimSpace s).data → ValidateEmail s = "") ∧
      (∀ rest, (goTrimSpace s).data = '@' :: rest → ValidateEmail s = "") := by
  intro s
  by_cases h : emailRegexAccepts (goTrimSpace s).data = true
  · have hVE : ValidateEmail s = goTrimSpace s := by simp [ValidateEmail, h]
    obtain ⟨l, d, t, hcs, hl, hlall, hd, hdall, htlen, htall⟩ :=
      (emailRegexAccepts_iff _).mp h
    refine ⟨Or.inl hVE, ⟨fun _ => ⟨l, d, t, hcs, hl, hlall, hd, hdall, htlen, htall⟩,
      fun _ => ?_⟩, fun hnot => ?_, fun hnot => ?_, fun rest hrest => ?_⟩
    · rw [hVE]
      intro hemp
      have hnil : (goTrimSpace s).data = [] := by rw [hemp]
      rw [hnil] at hcs
      simp at hcs
    · exfalso
      apply hnot
      rw [hcs]
      simp
    · exfalso
      apply hnot
      rw [hcs]
      simp
    · exfalso
      obtain ⟨c, l', hcl⟩ := List.exists_cons_of_ne_nil hl
      rw [hcl] at hcs
      rw [hrest] at hcs
      simp only [List.cons_append, List.cons.injEq] at hcs
      have hcat : c = '@' := hcs.1.symm
      have hlc : isLocalChar c = true := hlall c (by rw [hcl]; simp)
      rw [hcat] at hlc
      exact absurd hlc (by decide)
  · have hVE : ValidateEmail s = "" := by simp [ValidateEmail, h]
    refine ⟨Or.inr hVE, ⟨fun hne => absurd hVE hne, fun hg => ?_⟩,
      fun _ => hVE, fun _ => hVE, fun _ _ => hVE⟩
    exfalso
    obtain ⟨l, d, t, hcs, hl, hlall, hd, hdall, htlen, htall⟩ := hg
    exact h ((emailRegexAccepts_iff _).mpr
      ⟨l, d, t, hcs, hl, hlall, hd, hdall, htlen, htall⟩)

/-- C6 witness: concrete malformed inputs — no `@`, no dot, and an empty
local part — all validate to the empty string. -/
theorem validateEmail_spec_witness :
    ValidateEmail "noatsign" = "" ∧
    ValidateEmail "user@nodot" = "" ∧
    ValidateEmail "@x.com" = "" :=
  ⟨(validateEmail_spec "noatsign").2.2.1 (by decide),
   (validateEmail_spec "user@nodot").2.2.2.1 (by decide),
   (validateEmail_spec "@x.com").2.2.2.2 "x.com".data (by decide)⟩

/-- C9: validating a padded valid address returns the bare address, and
`ValidateEmail` is idempotent on every input. -/
theorem validateEmail_idempotent :
    (∀ a : String, emailRegexAccepts a.data = true →
      ValidateEmail (" " ++ a ++ " ") = a) ∧
    (∀ s : String, ValidateEmail (ValidateEmail s) = ValidateEmail s) := by
  constructor
  · intro a h
    have htrim : goTrimSpace (" " ++ a ++ " ") = a :=
      goTrimSpace_wrap a (emailRegexAccepts_no_space h)
        (emailRegexAccepts_ne_nil h)
    simp [ValidateEmail, htrim, h]
  · intro s
    by_cases h : emailRegexAccepts (goTrimSpace s).data = true
    · have hVE : ValidateEmail s = goTrimSpace s := by simp [ValidateEmail, h]
      rw [hVE]
      have hself : goTrimSpace (goTrimSpace s) = goTrimSpace s :=
        goTrimSpace_eq_self (emailRegexAccepts_no_space h)
      simp [ValidateEmail, hself, h]
    · have hVE : ValidateEmail s = "" := by simp [ValidateEmail, h]
      rw [hVE]
      decide

/-- C9 witness: a concrete valid address. -/
theorem validateEmail_idempotent_witness :
    emailRegexAccepts "ok@x.com".data = true ∧
    ValidateEmail " ok@x.com " = "ok@x.com" :=
  ⟨by decide, by
    have h := validateEmail_idempotent.1 "ok@x.com" (by decide)
    simpa using h⟩

/-- The header block of `BuildMimeMessage`: `From`, optional `To`/`Cc`,
optional `Reply-To`, `Subject`, `MIME-Version`. -/
def mimeHeaders (message : Option EmailMessage) : String :=
  "From: " ++ GetFrom message ++ "\r\n"
  ++ (if (GetTo message).length > 0 then
        "To: " ++ stringsJoin "," (GetTo message) ++ "\r\n"
      else "")
  ++ (if (GetCC message).length > 0 then
        "Cc: " ++ stringsJoin "," (GetCC message) ++ "\r\n"
      else "")
  ++ (if GetReplyTo message ≠ "" then
        "Reply-To: " ++ GetReplyTo message ++ "\r\n"
      else "")
  ++ ("Subject: " ++ GetSubject message ++ "\r\n")
  ++ "MIME-Version: 1.0\r\n"

/-- One attachment part of `BuildMimeMessage` inside `multipart/mixed`. -/
def attachmentPart (env : MimeEnv) (attachment : Attachment) : String :=
  let fileName := Attachment.GetFilename (some attachment)
  let mimeType := GetMimeType env.typeByExtension fileName
  ("--" ++ mixedBoundary env ++ "\r\n")
    ++ ("Content-Type: " ++ mimeType ++ "\r\n")
    ++ "Content-Transfer-Encoding: base64\r\n"
    ++ ("Content-Disposition: attachment; filename=\"" ++ fileName ++ "\"\r\n")
    ++ "\r\n"
    ++ String.mk (Attachment.GetBase64Content (some attachment))
    ++ "\r\n"

/-- Factoring an append out of a conditional append. -/
theorem if_append_distrib (c : Prop) [Decidable c] (a x : String) :
    (if c then a ++ x else a) = a ++ (if c then x else "") := by
  by_cases h : c <;> simp [h]

/-- Structural decomposition of `BuildMimeMessage`: headers, then
`multipart/mixed` wrapping `multipart/alternative` exactly when there are
attachments, a `text/plain` part exactly when the sanitized text is
non-empty, a `text/html` part exactly when the sanitized HTML is
non-empty, the closing `--altBoundary--`, and the attachment block. -/
theorem buildMime_decomposition (env : MimeEnv) (m : Option EmailMessage) :
    BuildMimeMessage env m =
      mimeHeaders m
      ++ (if GetAttachments m = [] then
            ("Content-Type: multipart/alternative; boundary=" ++ altBoundary env
              ++ "\r\n") ++ "\r\n"
          else
            ("Content-Type: multipart/mixed; boundary=" ++ mixedBoundary env
              ++ "\r\n") ++ "\r\n"
            ++ ("--" ++ mixedBoundary env ++ "\r\n")
            ++ ("Content-Type: multipart/alternative; boundary=" ++ altBoundary env
              ++ "\r\n") ++ "\r\n")
      ++ (if GetText m = "" then ""
          else ("--" ++ altBoundary env ++ "\r\n")
            ++ "Content-Type: text/plain; charset=UTF-8\r\n" ++ "\r\n"
            ++ GetText m ++ "\r\n")
      ++ (if GetHTML env.htmlSanitize m = "" then ""
          else ("--" ++ altBoundary env ++ "\r\n")
            ++ "Content-Type: text/html; charset=UTF-8\r\n" ++ "\r\n"
            ++ GetHTML env.htmlSanitize m ++ "\r\n")
      ++ ("--" ++ altBoundary env ++ "--\r\n")
      ++ (if GetAttachments m = [] then ""
          else strConcat ((GetAttachments m).map
              (fun attachment => attachmentPart env attachment))
            ++ ("--" ++ mixedBoundary env ++ "--\r\n")) := by
  by_cases hat : GetAttachments m = [] <;>
    by_cases htx : GetText m = "" <;>
      by_cases hht : GetHTML env.htmlSanitize m = "" <;>
        simp only [BuildMimeMessage, mimeHeaders, attachmentPart,
          hat, htx, hht, gt_iff_lt, List.length_pos, ne_eq,
          not_false_eq_true, not_true_eq_false, if_true, if_false,
          ite_true, ite_false, List.length_nil, Nat.lt_irrefl] <;>
        simp only [if_append_distrib] <;>
        simp [String.append_assoc, String.append_empty, String.empty_append, hat]

/-- Bare-LF scanner: the flag records whether the previous byte was CR;
an LF not preceded by CR fails. -/
def noBareLFAux : Bool → List Char → Bool
  | _, [] => true
  | prevCR, c :: rest =>
    if c.toNat = 10 then prevCR && noBareLFAux false rest
    else noBareLFAux (decide (c.toNat = 13)) rest

/-- Every LF in the string is part of a CRLF pair. -/
def noBareLF (s : String) : Bool :=
  noBareLFAux false s.data

/-- A string every suffix scan of which succeeds regardless of the
incoming CR flag: safe to place anywhere in a CRLF-terminated stream. -/
def CrlfSafe (s : String) : Prop :=
  ∀ f : Bool, noBareLFAux f s.data = true

/-- Appending preserves scanner success. -/
theorem noBareLFAux_append (b : List Char) (hb : ∀ f, noBareLFAux f b = true) :
    ∀ (a : List Char) (f : Bool),
      noBareLFAux f a = true → noBareLFAux f (a ++ b) = true := by
  intro a
  induction a with
  | nil => intro f h; simpa using hb f
  | cons c rest ih =>
    intro f h
    simp only [noBareLFAux] at h
    simp only [List.cons_append, noBareLFAux]
    by_cases hc : c.toNat = 10
    · simp only [hc, if_true, Bool.and_eq_true] at h ⊢
      exact ⟨h.1, ih false h.2⟩
    · simp only [if_neg hc] at h ⊢
      exact ih _ h

/-- CrlfSafe is closed under append. -/
theorem CrlfSafe.append {a b : String} (ha : CrlfSafe a) (hb : CrlfSafe b) :
    CrlfSafe (a ++ b) := by
  intro f
  rw [String.data_append]
  exact noBareLFAux_append b.data hb a.data f (ha f)

/-- A string without LF passes the scanner under any flag. -/
theorem noBareLFAux_of_lfFree :
    ∀ (l : List Char), (∀ c ∈ l, c.toNat ≠ 10) → ∀ f, noBareLFAux f l = true := by
  intro l
  induction l with
  | nil => intro _ f; rfl
  | cons c rest ih =>
    intro h f
    simp only [noBareLFAux, if_neg (h c (List.mem_cons_self c rest))]
    exact ih (fun d hd => h d (List.mem_cons_of_mem _ hd)) _

/-- An LF-free string is CrlfSafe. -/
theorem CrlfSafe.of_lfFree {s : String} (h : ∀ c ∈ s.data, c.toNat ≠ 10) :
    CrlfSafe s :=
  fun f => noBareLFAux_of_lfFree s.data h f

/-- CrlfSafe by evaluating the scanner under both flags. -/
theorem CrlfSafe.of_eval {s : String} (h0 : noBareLFAux false s.data = true)
    (h1 : noBareLFAux true s.data = true) : CrlfSafe s := by
  intro f
  cases f with
  | false => exact h0
  | true => exact h1

/-- CrlfSafe is closed under conditionals. -/
theorem CrlfSafe.ite_cond (c : Prop) [Decidable c] {a b : String}
    (ha : CrlfSafe a) (hb : CrlfSafe b) : CrlfSafe (if c then a else b) := by
  by_cases h : c
  · simpa [h] using ha
  · simpa [h] using hb

/-- CrlfSafe is closed under concatenation of a list of strings. -/
theorem CrlfSafe.concat {l : List String} (h : ∀ s ∈ l, CrlfSafe s) :
    CrlfSafe (strConcat l) := by
  induction l with
  | nil => intro f; rfl
  | cons s rest ih =>
    show CrlfSafe (s ++ strConcat rest)
    exact CrlfSafe.append (h s (by simp))
      (ih (fun t ht => h t (by simp [ht])))

/-- Elements of a literal string all differ from LF when the decidable
scan says so. -/
theorem lfFree_of_all (s : String)
    (h : s.data.all (fun c => decide (c.toNat ≠ 10)) = true) :
    ∀ c ∈ s.data, c.toNat ≠ 10 :=
  fun c hc => by simpa using List.all_eq_true.mp h c hc

/-- Non-space characters are not LF. -/
theorem goIsSpace_false_ne_lf {c : Char} (h : goIsSpace c = false) :
    c.toNat ≠ 10 := by
  simp [goIsSpace] at h
  omega

/-- Validated addresses contain no LF. -/
theorem validateEmail_lfFree (s : String) :
    ∀ c ∈ (ValidateEmail s).data, c.toNat ≠ 10 := by
  by_cases h : emailRegexAccepts (goTrimSpace s).data = true
  · have hVE : ValidateEmail s = goTrimSpace s := by simp [ValidateEmail, h]
    rw [hVE]
    intro c hc
    exact goIsSpace_false_ne_lf (emailRegexAccepts_no_space h c hc)
  · have hVE : ValidateEmail s = "" := by simp [ValidateEmail, h]
    rw [hVE]
    intro c hc
    simp at hc

/-- Every member of a validated slice is some `ValidateEmail` output. -/
theorem validateEmailSlice_mem (l : List String) :
    ∀ x ∈ ValidateEmailSlice l, ∃ y, x = ValidateEmail y := by
  suffices h : ∀ (l acc : List String), (∀ x ∈ acc, ∃ y, x = ValidateEmail y) →
      ∀ x ∈ l.foldl
        (fun validEmails email =>
          if ValidateEmail email ≠ "" then validEmails ++ [ValidateEmail email]
          else validEmails) acc, ∃ y, x = ValidateEmail y by
    intro x hx
    exact h l [] (by simp) x hx
  intro l
  induction l with
  | nil => intro acc hacc x hx; exact hacc x hx
  | cons e rest ih =>
    intro acc hacc x hx
    simp only [List.foldl_cons] at hx
    by_cases he : ValidateEmail e ≠ ""
    · refine ih _ ?_ x (by simpa [he] using hx)
      intro z hz
      rcases List.mem_append.mp hz with h1 | h1
      · exact hacc z h1
      · simp only [List.mem_singleton] at h1
        exact ⟨e, h1⟩
    · exact ih _ hacc x (by simpa [he] using hx)

/-- Characters of a separator-join come from the separator or a member. -/
theorem mem_stringsJoin (sep : String) :
    ∀ (l : List String) (c : Char), c ∈ (stringsJoin sep l).data →
      c ∈ sep.data ∨ ∃ s ∈ l, c ∈ s.data := by
  intro l
  induction l with
  | nil => intro c hc; simp [stringsJoin] at hc
  | cons s rest ih =>
    intro c hc
    cases rest with
    | nil =>
      right
      exact ⟨s, by simp, by simpa [stringsJoin] using hc⟩
    | cons s2 rest2 =>
      rw [show stringsJoin sep (s :: s2 :: rest2)
          = s ++ sep ++ stringsJoin sep (s2 :: rest2) from rfl] at hc
      simp only [String.data_append, List.mem_append] at hc
      rcases hc with (hc | hc) | hc
      · right; exact ⟨s, by simp, hc⟩
      · left; exact hc
      · rcases ih c hc with h1 | ⟨t, ht, hct⟩
        · left; exact h1
        · right; exact ⟨t, by simp [ht], hct⟩

/-- A comma-join of validated addresses contains no LF. -/
theorem joined_addresses_lfFree (l : List String) :
    ∀ c ∈ (stringsJoin "," (ValidateEmailSlice l)).data, c.toNat ≠ 10 := by
  intro c hc
  rcases mem_stringsJoin "," (ValidateEmailSlice l) c hc with h1 | ⟨s, hs, hcs⟩
  · simp only [show (",").data = [','] from rfl, List.mem_singleton] at h1
    rw [h1]; decide
  · obtain ⟨y, rfl⟩ := validateEmailSlice_mem l s hs
    exact validateEmail_lfFree y c hcs

/-- Digit characters come from the fixed digit alphabet. -/
theorem digitChar_mem (d : Nat) : digitChar d ∈ ("0123456789").data := by
  unfold digitChar
  cases h : ("0123456789").data.get? d with
  | some c => simpa using List.get?_mem h
  | none => decide

/-- Digit characters are not LF. -/
theorem digitChar_ne_lf (d : Nat) : (digitChar d).toNat ≠ 10 := by
  have hmem := digitChar_mem d
  have hall : ("0123456789").data.all (fun c => decide (c.toNat ≠ 10)) = true := by
    decide
  simpa using List.all_eq_true.mp hall _ hmem

/-- The decimal core emits only digits over the accumulator. -/
theorem natDigitsCore_lfFree :
    ∀ (fuel n : Nat) (acc : List Char), (∀ c ∈ acc, c.toNat ≠ 10) →
      ∀ c ∈ natDigitsCore fuel n acc, c.toNat ≠ 10 := by
  intro fuel
  induction fuel with
  | zero => intro n acc hacc c hc; exact hacc c hc
  | succ f ih =>
    intro n acc hacc c hc
    simp only [natDigitsCore] at hc
    by_cases h : n < 10
    · rw [if_pos h] at hc
      rcases List.mem_cons.mp hc with h1 | h1
      · rw [h1]; exact digitChar_ne_lf n
      · exact hacc c h1
    · rw [if_neg h] at hc
      refine ih (n / 10) _ ?_ c hc
      intro d hd
      rcases List.mem_cons.mp hd with h1 | h1
      · rw [h1]; exact digitChar_ne_lf _
      · exact hacc d h1

/-- Rendered integers contain no LF. -/
theorem intToString_lfFree (i : Int) :
    ∀ c ∈ (intToString i).data, c.toNat ≠ 10 := by
  cases i with
  | ofNat m =>
    intro c hc
    exact natDigitsCore_lfFree (m + 1) m [] (by simp) c hc
  | negSucc m =>
    intro c hc
    rw [show (intToString (Int.negSucc m)).data
        = ("-").data ++ (natToString (m + 1)).data from String.data_append _ _] at hc
    rcases List.mem_append.mp hc with h1 | h1
    · simp only [show ("-").data = ['-'] from rfl, List.mem_singleton] at h1
      rw [h1]; decide
    · exact natDigitsCore_lfFree (m + 2) (m + 1) [] (by simp) c h1

/-- Boundary tokens contain no LF. -/
theorem mixedBoundary_lfFree (env : MimeEnv) :
    ∀ c ∈ (mixedBoundary env).data, c.toNat ≠ 10 := by
  intro c hc
  rw [show (mixedBoundary env).data
      = ("mixed-boundary-").data ++ (intToString env.mixedNanos).data
    from String.data_append _ _] at hc
  rcases List.mem_append.mp hc with h1 | h1
  · exact lfFree_of_all _ (by decide) c h1
  · exact intToString_lfFree _ c h1

/-- Boundary tokens contain no LF. -/
theorem altBoundary_lfFree (env : MimeEnv) :
    ∀ c ∈ (altBoundary env).data, c.toNat ≠ 10 := by
  intro c hc
  rw [show (altBoundary env).data
      = ("alt-boundary-").data ++ (intToString env.altNanos).data
    from String.data_append _ _] at hc
  rcases List.mem_append.mp hc with h1 | h1
  · exact lfFree_of_all _ (by decide) c h1
  · exact intToString_lfFree _ c h1

/-- Base64 output characters come from the alphabet or are padding. -/
theorem b64Char_mem (n : Nat) : b64Char n ∈ base64Alphabet := by
  unfold b64Char
  cases h : base64Alphabet.get? n with
  | some c => simpa using List.get?_mem h
  | none => decide

/-- Members of the base64 encoding are alphabet characters or `=`. -/
theorem mem_base64Encode :
    ∀ (bs : List Nat), ∀ c ∈ base64Encode bs, c ∈ base64Alphabet ∨ c = '='
  | [] => by intro c hc; simp [base64Encode] at hc
  | [b1] => by
    intro c hc
    simp only [base64Encode, List.mem_cons, List.not_mem_nil, or_false] at hc
    rcases hc with h | h | h | h
    · exact Or.inl (h ▸ b64Char_mem _)
    · exact Or.inl (h ▸ b64Char_mem _)
    · exact Or.inr h
    · exact Or.inr h
  | [b1, b2] => by
    intro c hc
    simp only [base64Encode, List.mem_cons, List.not_mem_nil, or_false] at hc
    rcases hc with h | h | h | h
    · exact Or.inl (h ▸ b64Char_mem _)
    · exact Or.inl (h ▸ b64Char_mem _)
    · exact Or.inl (h ▸ b64Char_mem _)
    · exact Or.inr h
  | b1 :: b2 :: b3 :: rest => by
    intro c hc
    simp only [base64Encode, List.mem_cons] at hc
    rcases hc with h | h | h | h | h
    · exact Or.inl (h ▸ b64Char_mem _)
    · exact Or.inl (h ▸ b64Char_mem _)
    · exact Or.inl (h ▸ b64Char_mem _)
    · exact Or.inl (h ▸ b64Char_mem _)
    · exact mem_base64Encode rest c h

/-- Base64 content bytes contain no LF. -/
theorem getBase64Content_lfFree (a : Attachment) :
    ∀ c ∈ Attachment.GetBase64Content (some a), c.toNat ≠ 10 := by
  intro c hc
  simp only [Attachment.GetBase64Content] at hc
  by_cases h : a.content.length = 0
  · rw [if_pos h] at hc; simp at hc
  · rw [if_neg h] at hc
    rcases mem_base64Encode a.content c hc with hmem | heq
    · have hall : base64Alphabet.all (fun c => decide (c.toNat ≠ 10)) = true := by
        decide
      simpa using List.all_eq_true.mp hall c hmem
    · rw [heq]; decide

/-- C4: MIME structure of `BuildMimeMessage` output: with attachments the
top level is `multipart/mixed` wrapping an inner `multipart/alternative`,
otherwise `multipart/alternative` directly; a `text/plain; charset=UTF-8`
part appears exactly when the sanitized text is non-empty and a
`text/html; charset=UTF-8` part exactly when the sanitized HTML is
non-empty, each part body followed by CRLF, the alternative container
closed by `--altBoundary--` after the last part. -/
theorem mime_structure (env : MimeEnv) (m : Option EmailMessage) :
    BuildMimeMessage env m =
      mimeHeaders m
      ++ (if GetAttachments m = [] then
            ("Content-Type: multipart/alternative; boundary=" ++ altBoundary env
              ++ "\r\n") ++ "\r\n"
          else
            ("Content-Type: multipart/mixed; boundary=" ++ mixedBoundary env
              ++ "\r\n") ++ "\r\n"
            ++ ("--" ++ mixedBoundary env ++ "\r\n")
            ++ ("Content-Type: multipart/alternative; boundary=" ++ altBoundary env
              ++ "\r\n") ++ "\r\n")
      ++ (if GetText m = "" then ""
          else ("--" ++ altBoundary env ++ "\r\n")
            ++ "Content-Type: text/plain; charset=UTF-8\r\n" ++ "\r\n"
            ++ GetText m ++ "\r\n")
      ++ (if GetHTML env.htmlSanitize m = "" then ""
          else ("--" ++ altBoundary env ++ "\r\n")
            ++ "Content-Type: text/html; charset=UTF-8\r\n" ++ "\r\n"
            ++ GetHTML env.htmlSanitize m ++ "\r\n")
      ++ ("--" ++ altBoundary env ++ "--\r\n")
      ++ (if GetAttachments m = [] then ""
          else strConcat ((GetAttachments m).map
              (fun attachment => attachmentPart env attachment))
            ++ ("--" ++ mixedBoundary env ++ "--\r\n")) :=
  buildMime_decomposition env m

/-- A message whose plain-text body carries an interior bare LF that the
default text sanitizer preserves. -/
def bareLFMessage : EmailMessage :=
  NewFullEmailMessage "a@x.com" ["b@x.com"] "s" [] [] "" "line1\nline2" "" []

/-- C5 counterexample: the text body is written into the MIME bytes
verbatim, so a body holding a bare LF yields output with a bare LF. -/
theorem crlf_counterexample :
    noBareLF (BuildMimeMessage scenarioEnv (some bareLFMessage)) = false := by
  decide

/-- C5 amended: every line terminator the serializer itself emits is
CRLF; the full output is free of bare LF provided the sanitized subject,
text and HTML and each attachment's sanitized filename and MIME type
contain no LF (validated addresses, boundary tokens and base64 content
are LF-free unconditionally). -/
theorem buildMime_crlf (env : MimeEnv) (m : Option EmailMessage)
    (hsub : ∀ c ∈ (GetSubject m).data, c.toNat ≠ 10)
    (htxt : ∀ c ∈ (GetText m).data, c.toNat ≠ 10)
    (hhtml : ∀ c ∈ (GetHTML env.htmlSanitize m).data, c.toNat ≠ 10)
    (hatt : ∀ a ∈ GetAttachments m,
      (∀ c ∈ (Attachment.GetFilename (some a)).data, c.toNat ≠ 10) ∧
      (∀ c ∈ (GetMimeType env.typeByExtension
          (Attachment.GetFilename (some a))).data, c.toNat ≠ 10)) :
    noBareLF (BuildMimeMessage env m) = true := by
  suffices hsafe : CrlfSafe (BuildMimeMessage env m) from hsafe false
  have hjoinV : ∀ l, CrlfSafe (stringsJoin "," (ValidateEmailSlice l)) :=
    fun l => CrlfSafe.of_lfFree (joined_addresses_lfFree l)
  have hfrom : CrlfSafe (GetFrom m) := by
    cases m with
    | none => exact CrlfSafe.of_lfFree (by intro c hc; simp [GetFrom] at hc)
    | some e => exact CrlfSafe.of_lfFree (validateEmail_lfFree _)
  have hreply : CrlfSafe (GetReplyTo m) := by
    cases m with
    | none => exact CrlfSafe.of_lfFree (by intro c hc; simp [GetReplyTo] at hc)
    | some e => exact CrlfSafe.of_lfFree (validateEmail_lfFree _)
  have hjoinTo : CrlfSafe (stringsJoin "," (GetTo m)) := by
    cases m with
    | none =>
      exact CrlfSafe.of_lfFree (by intro c hc; simp [GetTo, stringsJoin] at hc)
    | some e => exact hjoinV e.to'
  have hjoinCc : CrlfSafe (stringsJoin "," (GetCC m)) := by
    cases m with
    | none =>
      exact CrlfSafe.of_lfFree (by intro c hc; simp [GetCC, stringsJoin] at hc)
    | some e => exact hjoinV e.cc
  have hsubS : CrlfSafe (GetSubject m) := CrlfSafe.of_lfFree hsub
  have htxtS : CrlfSafe (GetText m) := CrlfSafe.of_lfFree htxt
  have hhtmlS : CrlfSafe (GetHTML env.htmlSanitize m) := CrlfSafe.of_lfFree hhtml
  have hmixedB : CrlfSafe (mixedBoundary env) :=
    CrlfSafe.of_lfFree (mixedBoundary_lfFree env)
  have haltB : CrlfSafe (altBoundary env) :=
    CrlfSafe.of_lfFree (altBoundary_lfFree env)
  rw [buildMime_decomposition env m]
  refine CrlfSafe.append (CrlfSafe.append (CrlfSafe.append (CrlfSafe.append
    (CrlfSafe.append ?_ ?_) ?_) ?_) ?_) ?_
  · unfold mimeHeaders
    repeat' first
      | apply CrlfSafe.append
      | apply CrlfSafe.ite_cond
    all_goals first
      | exact hfrom
      | exact hreply
      | exact hjoinTo
      | exact hjoinCc
      | exact hsubS
      | exact CrlfSafe.of_lfFree (intToString_lfFree _)
      | exact CrlfSafe.of_eval (by decide) (by decide)
  · apply CrlfSafe.ite_cond
    all_goals
      repeat' apply CrlfSafe.append
    all_goals first
      | exact hmixedB
      | exact haltB
      | exact CrlfSafe.of_lfFree (intToString_lfFree _)
      | exact CrlfSafe.of_eval (by decide) (by decide)
  · apply CrlfSafe.ite_cond
    all_goals
      repeat' apply CrlfSafe.append
    all_goals first
      | exact haltB
      | exact htxtS
      | exact CrlfSafe.of_lfFree (intToString_lfFree _)
      | exact CrlfSafe.of_eval (by decide) (by decide)
  · apply CrlfSafe.ite_cond
    all_goals
      repeat' apply CrlfSafe.append
    all_goals first
      | exact haltB
      | exact hhtmlS
      | exact CrlfSafe.of_lfFree (intToString_lfFree _)
      | exact CrlfSafe.of_eval (by decide) (by decide)
  · repeat' apply CrlfSafe.append
    all_goals first
      | exact haltB
      | exact CrlfSafe.of_lfFree (intToString_lfFree _)
      | exact CrlfSafe.of_eval (by decide) (by decide)
  · apply CrlfSafe.ite_cond
    · exact CrlfSafe.of_eval (by decide) (by decide)
    · apply CrlfSafe.append
      · apply CrlfSafe.concat
        intro s hs
        obtain ⟨a, ha, rfl⟩ := List.mem_map.mp hs
        unfold attachmentPart
        have hfn : CrlfSafe (Attachment.GetFilename (some a)) :=
          CrlfSafe.of_lfFree (hatt a ha).1
        have hmt : CrlfSafe (GetMimeType env.typeByExtension
            (Attachment.GetFilename (some a))) :=
          CrlfSafe.of_lfFree (hatt a ha).2
        have hb64 : CrlfSafe (String.mk (Attachment.GetBase64Content (some a))) :=
          CrlfSafe.of_lfFree (getBase64Content_lfFree a)
        repeat' apply CrlfSafe.append
        all_goals first
          | exact hmixedB
          | exact hfn
          | exact hmt
          | exact hb64
          | exact CrlfSafe.of_lfFree (intToString_lfFree _)
          | exact CrlfSafe.of_eval (by decide) (by decide)
      · repeat' apply CrlfSafe.append
        all_goals first
          | exact hmixedB
          | exact CrlfSafe.of_lfFree (intToString_lfFree _)
          | exact CrlfSafe.of_eval (by decide) (by decide)

/-- C5 witness for the amended statement: the BCC scenario message has
LF-free rendered fields, and its serialized bytes contain no bare LF. -/
theorem buildMime_crlf_witness :
    noBareLF (BuildMimeMessage scenarioEnv (some bccScenarioMessage)) = true :=
  buildMime_crlf scenarioEnv (some bccScenarioMessage)
    (by decide) (by decide) (by decide) (by decide)
